import Mathlib

/-!
Verification of the starry-prx rewrite-and-relay pipeline.

The repository implements a forward HTTP proxy as a single handler
(`src/unnamed/part_000`, `src/unnamed/part_001`): it fetches a target page,
rewrites hyperlinks and embedded resource references through `wrap`, filters
response headers, and relays the result.  This file gives a shallow embedding
of the pipeline: strings are lists of Unicode scalar values, the HTML document
is a tree of elements and text nodes (the cheerio parse/serialize boundary is
external to the rewriting logic), and the JS platform builtins used by the code
(`encodeURIComponent`, `decodeURIComponent`, `new URL`) are modelled explicitly
where their behaviour matters to the claims.
-/

/-- Strings are modelled as lists of Unicode scalar values (Lean `Char`). -/
abbrev Str := List Char

/-- ASCII lower-casing of one character.  Models JS `String.prototype.toLowerCase`
on the ASCII range, which is the only range the code compares (header names and
URL scheme markers are ASCII). -/
def lowerChar (c : Char) : Char :=
  if 'A' ≤ c ∧ c ≤ 'Z' then Char.ofNat (c.toNat + 32) else c

/-- Lower-case a whole string, character by character. -/
def lowerStr (s : Str) : Str := s.map lowerChar

/-- Tests whether `p` is an initial segment of `s`.  Models JS
`String.prototype.startsWith`. -/
def leadsWith : Str → Str → Bool
  | [], _ => true
  | _ :: _, [] => false
  | c :: p, d :: s => c = d && leadsWith p s

/-- The characters `encodeURIComponent` leaves unescaped:
`A-Z a-z 0-9 - _ . ! ~ * ' ( )` (ECMA-262 uriUnescaped set). -/
def isUnreservedURI (c : Char) : Bool :=
  ('A' ≤ c && c ≤ 'Z') || ('a' ≤ c && c ≤ 'z') || ('0' ≤ c && c ≤ '9') ||
  c = '-' || c = '_' || c = '.' || c = '!' || c = '~' || c = '*' ||
  c = Char.ofNat 39 || c = '(' || c = ')'

/-- UTF-8 encoding of a single Unicode scalar value, as a list of byte values. -/
def utf8EncodeChar (c : Char) : List Nat :=
  if c.toNat < 0x80 then [c.toNat]
  else if c.toNat < 0x800 then [0xC0 + c.toNat / 64, 0x80 + c.toNat % 64]
  else if c.toNat < 0x10000 then
    [0xE0 + c.toNat / 4096, 0x80 + c.toNat / 64 % 64, 0x80 + c.toNat % 64]
  else
    [0xF0 + c.toNat / 0x40000, 0x80 + c.toNat / 4096 % 64,
     0x80 + c.toNat / 64 % 64, 0x80 + c.toNat % 64]

/-- Upper-case hexadecimal digit for a value below 16 (as `encodeURIComponent`
emits). -/
def hexDigit (n : Nat) : Char :=
  if n < 10 then Char.ofNat (48 + n) else Char.ofNat (55 + n)

/-- Percent-escape of one byte: `%XY` with upper-case hex digits. -/
def percentEncodeByte (b : Nat) : Str := ['%', hexDigit (b / 16), hexDigit (b % 16)]

/-- Models the JS builtin `encodeURIComponent`: unreserved characters pass
through, every other character is replaced by the percent-escapes of its UTF-8
bytes. -/
def encodeURIComponent : Str → Str
  | [] => []
  | c :: s =>
    (if isUnreservedURI c then [c]
     else ((utf8EncodeChar c).map percentEncodeByte).flatten) ++ encodeURIComponent s

/-- Value of a hexadecimal digit character (either case), `none` otherwise. -/
def hexVal (c : Char) : Option Nat :=
  if '0' ≤ c ∧ c ≤ '9' then some (c.toNat - 48)
  else if 'A' ≤ c ∧ c ≤ 'F' then some (c.toNat - 55)
  else if 'a' ≤ c ∧ c ≤ 'f' then some (c.toNat - 87)
  else none

mutual

/-- First phase of `decodeURIComponent`: turn a percent-encoded string into the
byte sequence it denotes.  A `%XY` escape contributes the byte `XY`;
any other character contributes its own UTF-8 bytes.  A malformed escape
(truncated or non-hex) yields `none`, modelling the `URIError` the JS builtin
raises. -/
def percentDecodeBytes : Str → Option (List Nat)
  | [] => some []
  | c :: rest =>
    if c = '%' then percentDecodeEsc rest
    else (percentDecodeBytes rest).map (fun l => utf8EncodeChar c ++ l)

/-- Decode the two hex digits following a `%` escape marker. -/
def percentDecodeEsc : Str → Option (List Nat)
  | a :: b :: rest2 =>
    match hexVal a, hexVal b with
    | some x, some y => (percentDecodeBytes rest2).map (fun l => (16 * x + y) :: l)
    | _, _ => none
  | _ => none

end

/-- A UTF-8 continuation byte: `0x80 ≤ b < 0xC0`. -/
def isCont (b : Nat) : Bool := 0x80 ≤ b && b < 0xC0

mutual

/-- Second phase of `decodeURIComponent`: strict UTF-8 decoding of a byte
sequence (overlong forms, surrogates and out-of-range values rejected, as the
JS builtin rejects them with `URIError`). -/
def utf8Decode : List Nat → Option (List Char)
  | [] => some []
  | b :: rest =>
    if b < 0x80 then (utf8Decode rest).map (fun l => Char.ofNat b :: l)
    else if b < 0xC2 then none
    else if b < 0xE0 then utf8Dec2 b rest
    else if b < 0xF0 then utf8Dec3 b rest
    else if b < 0xF5 then utf8Dec4 b rest
    else none

/-- Continuation of `utf8Decode` after a two-byte lead byte. -/
def utf8Dec2 (b : Nat) : List Nat → Option (List Char)
  | b2 :: r2 =>
    if isCont b2 = true then
      (utf8Decode r2).map (fun l => Char.ofNat ((b - 0xC0) * 64 + (b2 - 0x80)) :: l)
    else none
  | [] => none

/-- Continuation of `utf8Decode` after a three-byte lead byte. -/
def utf8Dec3 (b : Nat) : List Nat → Option (List Char)
  | b2 :: b3 :: r2 =>
    if isCont b2 = true ∧ isCont b3 = true ∧
        0x800 ≤ (b - 0xE0) * 4096 + (b2 - 0x80) * 64 + (b3 - 0x80) ∧
        ¬(0xD800 ≤ (b - 0xE0) * 4096 + (b2 - 0x80) * 64 + (b3 - 0x80) ∧
          (b - 0xE0) * 4096 + (b2 - 0x80) * 64 + (b3 - 0x80) < 0xE000) then
      (utf8Decode r2).map
        (fun l => Char.ofNat ((b - 0xE0) * 4096 + (b2 - 0x80) * 64 + (b3 - 0x80)) :: l)
    else none
  | _ => none

/-- Continuation of `utf8Decode` after a four-byte lead byte. -/
def utf8Dec4 (b : Nat) : List Nat → Option (List Char)
  | b2 :: b3 :: b4 :: r2 =>
    if isCont b2 = true ∧ isCont b3 = true ∧ isCont b4 = true ∧
        0x10000 ≤ (b - 0xF0) * 0x40000 + (b2 - 0x80) * 4096 + (b3 - 0x80) * 64 + (b4 - 0x80) ∧
        (b - 0xF0) * 0x40000 + (b2 - 0x80) * 4096 + (b3 - 0x80) * 64 + (b4 - 0x80) < 0x110000 then
      (utf8Decode r2).map
        (fun l =>
          Char.ofNat
            ((b - 0xF0) * 0x40000 + (b2 - 0x80) * 4096 + (b3 - 0x80) * 64 + (b4 - 0x80)) :: l)
    else none
  | _ => none

end

/-- Models the JS builtin `decodeURIComponent`: resolve percent-escapes to
bytes, then decode the byte sequence as UTF-8.  `none` models `URIError`. -/
def decodeURIComponent (s : Str) : Option Str := (percentDecodeBytes s).bind utf8Decode

/-- Embeds `wrap` (src/unnamed/part_001 lines 14-16): produce the proxy path
carrying the target URL percent-encoded as the single `url` query parameter. -/
def wrap (url : Str) : Str := "/api/proxy?url=".data ++ encodeURIComponent url

/-- Split a string at the first occurrence of `sep`: `some (before, after)`,
or `none` when `sep` does not occur. -/
def splitFirst (sep : Char) : Str → Option (Str × Str)
  | [] => none
  | c :: cs =>
    if c = sep then some ([], cs)
    else (splitFirst sep cs).map (fun p => (c :: p.1, p.2))

/-- Accumulator for `splitAll`: characters of the current piece are collected
in reverse in `acc`. -/
def splitAllAux (sep : Char) : Str → Str → List Str
  | [], acc => [acc.reverse]
  | c :: cs, acc =>
    if c = sep then acc.reverse :: splitAllAux sep cs []
    else splitAllAux sep cs (c :: acc)

/-- Split a string into the pieces separated by `sep` (JS `String.split`). -/
def splitAll (sep : Char) (s : Str) : List Str := splitAllAux sep s []

/-- Extract the value of the first query parameter named `name` from a path:
take the part after the first `?`, split it on `&`, and return the part after
`=` of the first piece whose name matches. -/
def getQueryParam (name : Str) (path : Str) : Option Str :=
  match splitFirst '?' path with
  | none => none
  | some (_, query) =>
    ((splitAll '&' query).filterMap (fun piece =>
      match splitFirst '=' piece with
      | some (k, v) => if k = name then some v else none
      | none => none)).head?

theorem char_toNat_valid (c : Char) :
    c.toNat < 0x110000 ∧ ¬(0xD800 ≤ c.toNat ∧ c.toNat < 0xE000) := by
  rcases c.valid with h | ⟨h1, h2⟩
  · have hh : c.toNat < 0xD800 := h
    exact ⟨by omega, by omega⟩
  · have e1 : 0xE000 ≤ c.toNat := h1
    have e2 : c.toNat < 0x110000 := h2
    exact ⟨e2, by omega⟩

theorem hexVal_hexDigit : ∀ n < 16, hexVal (hexDigit n) = some n := by decide

theorem utf8EncodeChar_lt (c : Char) : ∀ b ∈ utf8EncodeChar c, b < 256 := by
  obtain ⟨hv, _⟩ := char_toNat_valid c
  intro b hb
  rw [utf8EncodeChar] at hb
  split_ifs at hb
  · simp only [List.mem_singleton] at hb
    omega
  · simp only [List.mem_cons, List.not_mem_nil, or_false] at hb
    rcases hb with rfl | rfl <;> omega
  · simp only [List.mem_cons, List.not_mem_nil, or_false] at hb
    rcases hb with rfl | rfl | rfl <;> omega
  · simp only [List.mem_cons, List.not_mem_nil, or_false] at hb
    rcases hb with rfl | rfl | rfl | rfl <;> omega

theorem percentDecodeBytes_encodeByte (b : Nat) (hb : b < 256) (rest : Str) :
    percentDecodeBytes (percentEncodeByte b ++ rest) =
      (percentDecodeBytes rest).map (fun l => b :: l) := by
  have h1 : b / 16 < 16 := by omega
  have h2 : b % 16 < 16 := by omega
  have hrec : 16 * (b / 16) + b % 16 = b := by omega
  simp only [percentEncodeByte, List.cons_append, List.nil_append]
  rw [percentDecodeBytes, if_pos rfl, percentDecodeEsc,
    hexVal_hexDigit _ h1, hexVal_hexDigit _ h2]
  simp only [hrec]

theorem percentDecodeBytes_cons (c : Char) (hc : c ≠ '%') (rest : Str) :
    percentDecodeBytes (c :: rest) =
      (percentDecodeBytes rest).map (fun l => utf8EncodeChar c ++ l) := by
  rw [percentDecodeBytes, if_neg hc]

theorem percentDecodeBytes_encodeBytes (bs : List Nat) (hbs : ∀ b ∈ bs, b < 256) (rest : Str) :
    percentDecodeBytes ((bs.map percentEncodeByte).flatten ++ rest) =
      (percentDecodeBytes rest).map (fun l => bs ++ l) := by
  induction bs with
  | nil =>
    simp only [List.map_nil, List.flatten_nil, List.nil_append]
    cases percentDecodeBytes rest <;> simp
  | cons b bs ih =>
    simp only [List.map_cons, List.flatten_cons, List.append_assoc]
    rw [percentDecodeBytes_encodeByte b (hbs b (by simp))]
    rw [ih (fun x hx => hbs x (by simp [hx]))]
    cases percentDecodeBytes rest <;> simp

/-- UTF-8 byte sequence of a whole string. -/
def utf8Str (s : Str) : List Nat := (s.map utf8EncodeChar).flatten

theorem percentDecodeBytes_encode (s t : Str) :
    percentDecodeBytes (encodeURIComponent s ++ t) =
      (percentDecodeBytes t).map (fun l => utf8Str s ++ l) := by
  induction s with
  | nil =>
    simp only [encodeURIComponent, List.nil_append, utf8Str, List.map_nil, List.flatten_nil]
    cases percentDecodeBytes t <;> simp
  | cons c s ih =>
    have hstr : utf8Str (c :: s) = utf8EncodeChar c ++ utf8Str s := by
      simp [utf8Str]
    by_cases hc : isUnreservedURI c
    · have hne : c ≠ '%' := by
        intro h
        rw [h] at hc
        exact absurd hc (by decide)
      rw [encodeURIComponent, if_pos hc]
      simp only [List.cons_append, List.nil_append]
      rw [percentDecodeBytes_cons c hne, ih, hstr]
      cases percentDecodeBytes t <;> simp
    · rw [encodeURIComponent, if_neg hc]
      rw [List.append_assoc]
      rw [percentDecodeBytes_encodeBytes _ (utf8EncodeChar_lt c), ih, hstr]
      cases percentDecodeBytes t <;> simp

theorem utf8Decode_encodeChar (c : Char) (rest : List Nat) :
    utf8Decode (utf8EncodeChar c ++ rest) = (utf8Decode rest).map (fun l => c :: l) := by
  obtain ⟨hlt, hsur⟩ := char_toNat_valid c
  have hofn : Char.ofNat c.toNat = c := Char.ofNat_toNat c
  by_cases h1 : c.toNat < 0x80
  · rw [utf8EncodeChar, if_pos h1]
    simp only [List.cons_append, List.nil_append]
    rw [utf8Decode, if_pos h1, hofn]
  · by_cases h2 : c.toNat < 0x800
    · rw [utf8EncodeChar, if_neg h1, if_pos h2]
      simp only [List.cons_append, List.nil_append]
      rw [utf8Decode, if_neg (by omega), if_neg (by omega), if_pos (by omega), utf8Dec2]
      have hcont : isCont (0x80 + c.toNat % 64) = true := by
        simp only [isCont, Bool.and_eq_true, decide_eq_true_eq]
        omega
      rw [if_pos hcont]
      have harg : (0xC0 + c.toNat / 64 - 0xC0) * 64 + (0x80 + c.toNat % 64 - 0x80) = c.toNat := by
        omega
      rw [harg, hofn]
    · by_cases h3 : c.toNat < 0x10000
      · rw [utf8EncodeChar, if_neg h1, if_neg h2, if_pos h3]
        simp only [List.cons_append, List.nil_append]
        rw [utf8Decode, if_neg (by omega), if_neg (by omega), if_neg (by omega),
          if_pos (by omega), utf8Dec3]
        have hcond : isCont (0x80 + c.toNat / 64 % 64) = true ∧
            isCont (0x80 + c.toNat % 64) = true ∧
            0x800 ≤ (0xE0 + c.toNat / 4096 - 0xE0) * 4096 +
              (0x80 + c.toNat / 64 % 64 - 0x80) * 64 + (0x80 + c.toNat % 64 - 0x80) ∧
            ¬(0xD800 ≤ (0xE0 + c.toNat / 4096 - 0xE0) * 4096 +
                (0x80 + c.toNat / 64 % 64 - 0x80) * 64 + (0x80 + c.toNat % 64 - 0x80) ∧
              (0xE0 + c.toNat / 4096 - 0xE0) * 4096 +
                (0x80 + c.toNat / 64 % 64 - 0x80) * 64 + (0x80 + c.toNat % 64 - 0x80) < 0xE000) := by
          have harg0 : (0xE0 + c.toNat / 4096 - 0xE0) * 4096 +
              (0x80 + c.toNat / 64 % 64 - 0x80) * 64 + (0x80 + c.toNat % 64 - 0x80) = c.toNat := by
            omega
          rw [harg0]
          refine ⟨?_, ?_, by omega, hsur⟩ <;>
            (simp only [isCont, Bool.and_eq_true, decide_eq_true_eq]; omega)
        rw [if_pos hcond]
        have harg : (0xE0 + c.toNat / 4096 - 0xE0) * 4096 +
            (0x80 + c.toNat / 64 % 64 - 0x80) * 64 + (0x80 + c.toNat % 64 - 0x80) = c.toNat := by
          omega
        rw [harg, hofn]
      · rw [utf8EncodeChar, if_neg h1, if_neg h2, if_neg h3]
        simp only [List.cons_append, List.nil_append]
        rw [utf8Decode, if_neg (by omega), if_neg (by omega), if_neg (by omega),
          if_neg (by omega), if_pos (by omega), utf8Dec4]
        have harg : (0xF0 + c.toNat / 0x40000 - 0xF0) * 0x40000 +
            (0x80 + c.toNat / 4096 % 64 - 0x80) * 4096 +
            (0x80 + c.toNat / 64 % 64 - 0x80) * 64 + (0x80 + c.toNat % 64 - 0x80) = c.toNat := by
          omega
        have hcond : isCont (0x80 + c.toNat / 4096 % 64) = true ∧
            isCont (0x80 + c.toNat / 64 % 64) = true ∧
            isCont (0x80 + c.toNat % 64) = true ∧
            0x10000 ≤ (0xF0 + c.toNat / 0x40000 - 0xF0) * 0x40000 +
              (0x80 + c.toNat / 4096 % 64 - 0x80) * 4096 +
              (0x80 + c.toNat / 64 % 64 - 0x80) * 64 + (0x80 + c.toNat % 64 - 0x80) ∧
            (0xF0 + c.toNat / 0x40000 - 0xF0) * 0x40000 +
              (0x80 + c.toNat / 4096 % 64 - 0x80) * 4096 +
              (0x80 + c.toNat / 64 % 64 - 0x80) * 64 + (0x80 + c.toNat % 64 - 0x80) < 0x110000 := by
          rw [harg]
          refine ⟨?_, ?_, ?_, by omega, hlt⟩ <;>
            (simp only [isCont, Bool.and_eq_true, decide_eq_true_eq]; omega)
        rw [if_pos hcond, harg, hofn]

theorem utf8Decode_utf8Str (s : Str) : utf8Decode (utf8Str s) = some s := by
  induction s with
  | nil => rfl
  | cons c s ih =>
    have hstr : utf8Str (c :: s) = utf8EncodeChar c ++ utf8Str s := by
      simp [utf8Str]
    rw [hstr, utf8Decode_encodeChar, ih]
    rfl

theorem decode_encode (u : Str) : decodeURIComponent (encodeURIComponent u) = some u := by
  have h := percentDecodeBytes_encode u []
  rw [List.append_nil] at h
  rw [decodeURIComponent, h]
  simp only [percentDecodeBytes, Option.map_some', List.append_nil, Option.bind_some]
  exact utf8Decode_utf8Str u

theorem splitAllAux_no_sep {sep : Char} :
    ∀ {s : Str}, (∀ c ∈ s, c ≠ sep) → ∀ acc, splitAllAux sep s acc = [acc.reverse ++ s] := by
  intro s
  induction s with
  | nil => intro _ acc; simp [splitAllAux]
  | cons c cs ih =>
    intro h acc
    rw [splitAllAux, if_neg (h c (by simp))]
    rw [ih (fun d hd => h d (by simp [hd])) (c :: acc)]
    simp

theorem splitAll_no_sep {sep : Char} {s : Str} (h : ∀ c ∈ s, c ≠ sep) :
    splitAll sep s = [s] := by
  rw [splitAll, splitAllAux_no_sep h]
  simp

theorem splitFirst_append {sep : Char} :
    ∀ {p : Str}, (∀ c ∈ p, c ≠ sep) → ∀ r, splitFirst sep (p ++ sep :: r) = some (p, r) := by
  intro p
  induction p with
  | nil => intro _ r; simp [splitFirst]
  | cons c cs ih =>
    intro h r
    rw [List.cons_append, splitFirst, if_neg (h c (by simp))]
    rw [ih (fun d hd => h d (by simp [hd])) r]
    rfl

theorem encode_chars (u : Str) : ∀ c ∈ encodeURIComponent u,
    isUnreservedURI c = true ∨ c = '%' ∨ ∃ n, n < 16 ∧ c = hexDigit n := by
  induction u with
  | nil => intro c hc; exact absurd hc (by simp [encodeURIComponent])
  | cons d u ih =>
    intro c hc
    rw [encodeURIComponent, List.mem_append] at hc
    rcases hc with hc | hc
    · by_cases hd : isUnreservedURI d
      · rw [if_pos hd, List.mem_singleton] at hc
        subst hc
        exact Or.inl hd
      · rw [if_neg hd, List.mem_flatten] at hc
        obtain ⟨piece, hp, hcp⟩ := hc
        rw [List.mem_map] at hp
        obtain ⟨b, hb, rfl⟩ := hp
        have hb256 : b < 256 := utf8EncodeChar_lt d b hb
        simp only [percentEncodeByte, List.mem_cons, List.not_mem_nil, or_false] at hcp
        rcases hcp with rfl | rfl | rfl
        · exact Or.inr (Or.inl rfl)
        · exact Or.inr (Or.inr ⟨b / 16, by omega, rfl⟩)
        · exact Or.inr (Or.inr ⟨b % 16, by omega, rfl⟩)
    · exact ih c hc

theorem encode_no_sep (u : Str) :
    ∀ c ∈ encodeURIComponent u, c ≠ '?' ∧ c ≠ '&' ∧ c ≠ '=' := by
  intro c hc
  rcases encode_chars u c hc with h | rfl | ⟨n, hn, rfl⟩
  · refine ⟨?_, ?_, ?_⟩ <;> intro he <;> rw [he] at h <;> exact absurd h (by decide)
  · exact ⟨by decide, by decide, by decide⟩
  · have hall : ∀ m < 16, hexDigit m ≠ '?' ∧ hexDigit m ≠ '&' ∧ hexDigit m ≠ '=' := by decide
    exact hall n hn

theorem getQueryParam_wrap (u : Str) :
    getQueryParam "url".data (wrap u) = some (encodeURIComponent u) := by
  have hlit : "/api/proxy?url=".data = "/api/proxy".data ++ '?' :: "url=".data := by decide
  have hw : wrap u = "/api/proxy".data ++ '?' :: ("url=".data ++ encodeURIComponent u) := by
    rw [wrap, hlit, List.append_assoc]
    rfl
  have hq : splitFirst '?' (wrap u) =
      some ("/api/proxy".data, "url=".data ++ encodeURIComponent u) := by
    rw [hw]
    exact splitFirst_append (by decide) _
  have hnoamp : ∀ c ∈ "url=".data ++ encodeURIComponent u, c ≠ '&' := by
    intro c hc
    rw [List.mem_append] at hc
    rcases hc with hc | hc
    · revert hc
      revert c
      decide
    · exact (encode_no_sep u c hc).2.1
  have hpiece : splitFirst '=' ("url=".data ++ encodeURIComponent u) =
      some ("url".data, encodeURIComponent u) := by
    have hlit2 : "url=".data ++ encodeURIComponent u =
        "url".data ++ '=' :: encodeURIComponent u := by rfl
    rw [hlit2]
    exact splitFirst_append (by decide) _
  rw [getQueryParam, hq]
  simp only [splitAll_no_sep hnoamp, List.filterMap_cons, hpiece, eq_self_iff_true, if_true,
    List.head?_cons]

/-- C4: for every string `u` — including strings containing the reserved
characters `?`, `&`, `#` and space — extracting the `url` query parameter from
the path `wrap u` and percent-decoding it yields exactly `u`. -/
theorem c4_wrap_roundtrip (u : Str) :
    (getQueryParam "url".data (wrap u)).bind decodeURIComponent = some u := by
  rw [getQueryParam_wrap]
  exact decode_encode u

/-- The hop-by-hop header-name set of `filterResponseHeaders`
(src/unnamed/part_001 lines 85-94). -/
def hopByHop : List Str :=
  ["connection".data, "keep-alive".data, "proxy-authenticate".data,
   "proxy-authorization".data, "te".data, "trailer".data,
   "transfer-encoding".data, "upgrade".data]

/-- Models the JS object update `out[key] = value`: an existing key keeps its
position and gets the new value, a new key is appended. -/
def recordSet (m : List (Str × Str)) (k v : Str) : List (Str × Str) :=
  if m.any (fun p => p.1 = k) then m.map (fun p => if p.1 = k then (k, v) else p)
  else m ++ [(k, v)]

/-- One step of the `headers.forEach` loop of `filterResponseHeaders`
(src/unnamed/part_001 lines 96-107): lower-case the name, drop hop-by-hop
names, drop CSP and X-Frame-Options, drop Set-Cookie, keep the rest. -/
def filterHeaderStep (out : List (Str × Str)) (kv : Str × Str) : List (Str × Str) :=
  if hopByHop.contains (lowerStr kv.1) then out
  else if lowerStr kv.1 = "content-security-policy".data ∨
      lowerStr kv.1 = "x-frame-options".data then out
  else if lowerStr kv.1 = "set-cookie".data then out
  else recordSet out kv.1 kv.2

/-- Embeds `filterResponseHeaders` (src/unnamed/part_001 lines 83-115): run the
forEach loop over the upstream header mapping, then synthesize
`Content-Type: text/plain; charset=utf-8` when no key of the result lower-cases
to `content-type`. -/
def filterResponseHeaders (headers : List (Str × Str)) : List (Str × Str) :=
  let out := headers.foldl filterHeaderStep []
  if out.any (fun p => lowerStr p.1 = "content-type".data) then out
  else out ++ [("Content-Type".data, "text/plain; charset=utf-8".data)]

/-- A header name the filter drops: hop-by-hop, CSP, X-Frame-Options or
Set-Cookie, matched on the lower-cased name. -/
def droppedName (k : Str) : Bool :=
  hopByHop.contains (lowerStr k) || lowerStr k = "content-security-policy".data ||
  lowerStr k = "x-frame-options".data || lowerStr k = "set-cookie".data

theorem filterHeaderStep_eq (out : List (Str × Str)) (kv : Str × Str) :
    filterHeaderStep out kv =
      if droppedName kv.1 = true then out else recordSet out kv.1 kv.2 := by
  simp only [filterHeaderStep, droppedName, Bool.or_eq_true, decide_eq_true_eq]
  split_ifs <;> tauto

theorem recordSet_of_not_mem (m : List (Str × Str)) (k v : Str)
    (h : ∀ p ∈ m, p.1 ≠ k) : recordSet m k v = m ++ [(k, v)] := by
  rw [recordSet, if_neg]
  intro hany
  rw [List.any_eq_true] at hany
  obtain ⟨p, hp, heq⟩ := hany
  rw [decide_eq_true_eq] at heq
  exact h p hp heq

theorem droppedName_lower {a b : Str} (h : lowerStr a = lowerStr b) :
    droppedName a = droppedName b := by
  simp only [droppedName, h]

theorem fold_filterHeaderStep :
    ∀ (hs acc : List (Str × Str)),
      (∀ kv ∈ hs, ∀ p ∈ acc, lowerStr p.1 ≠ lowerStr kv.1) →
      List.Pairwise (fun a b => lowerStr a.1 ≠ lowerStr b.1) hs →
      hs.foldl filterHeaderStep acc = acc ++ hs.filter (fun kv => !droppedName kv.1) := by
  intro hs
  induction hs with
  | nil => intro acc _ _; simp
  | cons kv hs ih =>
    intro acc hacc hpw
    rw [List.pairwise_cons] at hpw
    obtain ⟨hkv, hpw'⟩ := hpw
    rw [List.foldl_cons, filterHeaderStep_eq, List.filter_cons]
    by_cases hd : droppedName kv.1 = true
    · rw [if_pos hd]
      have : (!droppedName kv.1) = false := by rw [hd]; rfl
      rw [this, if_neg (by simp)]
      exact ih acc (fun kv' h' p hp => hacc kv' (by simp [h']) p hp) hpw'
    · rw [if_neg hd]
      have hkeep : (!droppedName kv.1) = true := by
        cases hdd : droppedName kv.1
        · rfl
        · exact absurd hdd hd
      rw [hkeep, if_pos rfl]
      have hnm : ∀ p ∈ acc, p.1 ≠ kv.1 := by
        intro p hp he
        exact hacc kv (by simp) p hp (by rw [he])
      rw [recordSet_of_not_mem acc kv.1 kv.2 hnm]
      have hacc' : ∀ kv' ∈ hs, ∀ p ∈ acc ++ [(kv.1, kv.2)], lowerStr p.1 ≠ lowerStr kv'.1 := by
        intro kv' h' p hp
        rw [List.mem_append] at hp
        rcases hp with hp | hp
        · exact hacc kv' (by simp [h']) p hp
        · rw [List.mem_singleton] at hp
          subst hp
          exact hkv kv' h'
      rw [ih (acc ++ [(kv.1, kv.2)]) hacc' hpw']
      cases kv
      simp

theorem filterResponseHeaders_eq (hs : List (Str × Str))
    (hpw : List.Pairwise (fun a b => lowerStr a.1 ≠ lowerStr b.1) hs) :
    filterResponseHeaders hs =
      if (hs.filter (fun kv => !droppedName kv.1)).any
          (fun p => lowerStr p.1 = "content-type".data) then
        hs.filter (fun kv => !droppedName kv.1)
      else hs.filter (fun kv => !droppedName kv.1) ++
        [("Content-Type".data, "text/plain; charset=utf-8".data)] := by
  rw [filterResponseHeaders]
  rw [fold_filterHeaderStep hs [] (by simp) hpw]
  simp

/-- C1: for every upstream header mapping (distinct case-insensitive names, as
an HTTP header mapping has), the filter output omits every header whose name
case-insensitively matches a hop-by-hop name or CSP, X-Frame-Options or
Set-Cookie, and maps every other input header name to its value unchanged. -/
theorem c1_header_filter (hs : List (Str × Str))
    (hpw : List.Pairwise (fun a b => lowerStr a.1 ≠ lowerStr b.1) hs)
    (k v : Str) (hmem : (k, v) ∈ hs) :
    (droppedName k = true →
      ∀ p ∈ filterResponseHeaders hs, lowerStr p.1 ≠ lowerStr k) ∧
    (droppedName k = false → (k, v) ∈ filterResponseHeaders hs) := by
  rw [filterResponseHeaders_eq hs hpw]
  constructor
  · intro hd p hp heq
    by_cases hct : (hs.filter (fun kv => !droppedName kv.1)).any
        (fun p => lowerStr p.1 = "content-type".data) = true
    · rw [if_pos hct] at hp
      rw [List.mem_filter] at hp
      have : droppedName p.1 = true := by rw [droppedName_lower heq]; exact hd
      rw [this] at hp
      exact absurd hp.2 (by decide)
    · rw [if_neg hct, List.mem_append] at hp
      rcases hp with hp | hp
      · rw [List.mem_filter] at hp
        have : droppedName p.1 = true := by rw [droppedName_lower heq]; exact hd
        rw [this] at hp
        exact absurd hp.2 (by decide)
      · rw [List.mem_singleton] at hp
        subst hp
        have hval : droppedName ("Content-Type".data, "text/plain; charset=utf-8".data).1 =
            true := by rw [droppedName_lower heq]; exact hd
        exact absurd hval (by decide)
  · intro hd
    have hmf : (k, v) ∈ hs.filter (fun kv => !droppedName kv.1) := by
      rw [List.mem_filter]
      exact ⟨hmem, by simp [hd]⟩
    by_cases hct : (hs.filter (fun kv => !droppedName kv.1)).any
        (fun p => lowerStr p.1 = "content-type".data) = true
    · rw [if_pos hct]
      exact hmf
    · rw [if_neg hct, List.mem_append]
      exact Or.inl hmf

/-- C3: under the same distinctness assumption: when no surviving header name
lower-cases to `content-type`, the output carries exactly one content-type
entry, the synthesized `Content-Type: text/plain; charset=utf-8`; when a
content-type survives the filter, nothing is synthesized — every output entry
is an input entry. -/
theorem c3_content_type_fallback (hs : List (Str × Str))
    (hpw : List.Pairwise (fun a b => lowerStr a.1 ≠ lowerStr b.1) hs) :
    ((∀ kv ∈ hs, droppedName kv.1 = false → lowerStr kv.1 ≠ "content-type".data) →
      (filterResponseHeaders hs).filter (fun p => lowerStr p.1 = "content-type".data) =
        [("Content-Type".data, "text/plain; charset=utf-8".data)]) ∧
    ((∃ kv ∈ hs, droppedName kv.1 = false ∧ lowerStr kv.1 = "content-type".data) →
      ∀ p ∈ filterResponseHeaders hs, p ∈ hs) := by
  rw [filterResponseHeaders_eq hs hpw]
  constructor
  · intro hnone
    have hany : (hs.filter (fun kv => !droppedName kv.1)).any
        (fun p => lowerStr p.1 = "content-type".data) = false := by
      rw [List.any_eq_false]
      intro p hp
      rw [List.mem_filter] at hp
      have hkeep : droppedName p.1 = false := by
        cases hdd : droppedName p.1
        · rfl
        · rw [hdd] at hp; exact absurd hp.2 (by decide)
      intro habs
      rw [decide_eq_true_eq] at habs
      exact hnone p hp.1 hkeep habs
    rw [if_neg (by rw [hany]; simp)]
    rw [List.filter_append]
    have h1 : (hs.filter (fun kv => !droppedName kv.1)).filter
        (fun p => lowerStr p.1 = "content-type".data) = [] := by
      rw [List.filter_filter]
      rw [List.filter_eq_nil_iff]
      intro p hp
      rw [List.any_eq_false] at hany
      intro habs
      rw [Bool.and_eq_true, decide_eq_true_eq] at habs
      exact hany p (by rw [List.mem_filter]; exact ⟨hp, habs.2⟩) (by simp [habs.1])
    rw [h1]
    rfl
  · intro hex
    obtain ⟨kv, hkv, hkeep, hct⟩ := hex
    have hany : (hs.filter (fun kv => !droppedName kv.1)).any
        (fun p => lowerStr p.1 = "content-type".data) = true := by
      rw [List.any_eq_true]
      refine ⟨kv, ?_, by simp [hct]⟩
      rw [List.mem_filter]
      exact ⟨hkv, by simp [hkeep]⟩
    rw [if_pos hany]
    intro p hp
    exact List.mem_of_mem_filter hp

/-- Closed instance of C1: `Connection` (hop-by-hop, mixed case) is dropped
while the custom header `X-Custom` survives with its value. -/
theorem c1_header_filter_witness :
    (∀ p ∈ filterResponseHeaders
        [("Connection".data, "close".data), ("X-Custom".data, "1".data)],
      lowerStr p.1 ≠ lowerStr "Connection".data) ∧
    ("X-Custom".data, "1".data) ∈ filterResponseHeaders
        [("Connection".data, "close".data), ("X-Custom".data, "1".data)] :=
  ⟨(c1_header_filter _ (by decide) "Connection".data "close".data (by decide)).1 (by decide),
   (c1_header_filter _ (by decide) "X-Custom".data "1".data (by decide)).2 (by decide)⟩

/-- Closed instance of C3: with no content-type in the input the synthesized
entry is the single content-type of the output; with a surviving content-type
every output entry comes from the input. -/
theorem c3_content_type_fallback_witness :
    (filterResponseHeaders [("X-Custom".data, "1".data)]).filter
        (fun p => lowerStr p.1 = "content-type".data) =
      [("Content-Type".data, "text/plain; charset=utf-8".data)] ∧
    (∀ p ∈ filterResponseHeaders [("Content-Type".data, "text/css".data)],
      p ∈ [("Content-Type".data, "text/css".data)]) :=
  ⟨(c3_content_type_fallback _ (by decide)).1 (by decide),
   (c3_content_type_fallback _ (by decide)).2
     ⟨("Content-Type".data, "text/css".data), by decide, by decide, by decide⟩⟩

/-- Substring containment test (JS `String.prototype.includes`). -/
def containsSub (pat : Str) : Str → Bool
  | [] => leadsWith pat []
  | c :: s => leadsWith pat (c :: s) || containsSub pat s

/-- Models Node `res.setHeader`: header names are case-insensitive; setting a
name that already exists replaces the stored header, otherwise the header is
appended. -/
def setHeader (m : List (Str × Str)) (k v : Str) : List (Str × Str) :=
  if m.any (fun p => lowerStr p.1 = lowerStr k) then
    m.map (fun p => if lowerStr p.1 = lowerStr k then (k, v) else p)
  else m ++ [(k, v)]

/-- Models `Headers.get` / reading a response header: case-insensitive lookup
of the first matching entry. -/
def getHeader (m : List (Str × Str)) (k : Str) : Option Str :=
  ((m.filter (fun p => lowerStr p.1 = lowerStr k)).head?).map Prod.snd

/-- Embeds the response-header emission of the handler success path
(src/unnamed/part_001 lines 152-172): compute the filtered header set, read the
upstream content type, branch on whether it contains `text/html`; each branch
first does `res.setHeader("Content-Type", ...)` and then replays every filtered
header through `res.setHeader`. -/
def respondHeaders (upstream : List (Str × Str)) : List (Str × Str) :=
  let headers := filterResponseHeaders upstream
  let contentType := (getHeader upstream "content-type".data).getD []
  let isHtml := containsSub "text/html".data contentType
  if isHtml = false then
    headers.foldl (fun m kv => setHeader m kv.1 kv.2)
      (setHeader [] "Content-Type".data
        (if contentType = [] then "application/octet-stream".data else contentType))
  else
    headers.foldl (fun m kv => setHeader m kv.1 kv.2)
      (setHeader [] "Content-Type".data "text/html; charset=utf-8".data)

/-- C2 (counter-evidence, code bug): an upstream response whose Content-Type is
`text/html; charset=iso-8859-1` takes the HTML branch, yet the relayed
Content-Type is the upstream value, not `text/html; charset=utf-8`: the loop
that replays the filtered headers runs after `res.setHeader("Content-Type",
"text/html; charset=utf-8")` and overwrites it, so that line never takes
effect. -/
theorem c2_content_type_clobbered :
    containsSub "text/html".data
        ((getHeader [("Content-Type".data, "text/html; charset=iso-8859-1".data)]
          "content-type".data).getD []) = true ∧
    getHeader (respondHeaders [("Content-Type".data, "text/html; charset=iso-8859-1".data)])
        "content-type".data = some "text/html; charset=iso-8859-1".data ∧
    getHeader (respondHeaders [("Content-Type".data, "text/html; charset=iso-8859-1".data)])
        "content-type".data ≠ some "text/html; charset=utf-8".data := by
  decide

/-- ASCII letter test. -/
def isAsciiLetter (c : Char) : Bool := ('A' ≤ c && c ≤ 'Z') || ('a' ≤ c && c ≤ 'z')

/-- URL scheme characters after the first: letters, digits, `+`, `-`, `.`. -/
def isSchemeChar (c : Char) : Bool :=
  isAsciiLetter c || ('0' ≤ c && c ≤ '9') || c = '+' || c = '-' || c = '.'

/-- Split a candidate `scheme:rest` reference: `some (scheme, rest)` when the
part before the first `:` is a wellformed scheme (lower-cased, as URL parsing
normalizes schemes), `none` otherwise (the reference is relative). -/
def splitScheme (s : Str) : Option (Str × Str) :=
  match splitFirst ':' s with
  | none => none
  | some (sch, rest) =>
    match sch with
    | [] => none
    | c :: _ =>
      if isAsciiLetter c && sch.all isSchemeChar then some (lowerStr sch, rest) else none

/-- Parse an absolute `http://` / `https://` URL into scheme, host and the
path/query/fragment tail.  Models the subset of the WHATWG URL syntax the code
exercises: the special schemes require `//` and a nonempty host, so
`new URL("http://")` is a parse error (`none`). -/
def parseHttpURL (s : Str) : Option (Str × Str × Str) :=
  match splitScheme s with
  | none => none
  | some (sch, rest) =>
    if sch = "http".data ∨ sch = "https".data then
      if leadsWith "//".data rest = true then
        if rest.drop 2 |>.takeWhile (fun c => c ≠ '/' && c ≠ '?' && c ≠ '#') |>.isEmpty then
          none
        else
          some (sch, rest.drop 2 |>.takeWhile (fun c => c ≠ '/' && c ≠ '?' && c ≠ '#'),
            rest.drop 2 |>.dropWhile (fun c => c ≠ '/' && c ≠ '?' && c ≠ '#'))
      else none
    else none

/-- Serialize a parsed http/https URL; an empty path serializes as `/`, as
`new URL("https://example.com").toString()` is `https://example.com/`. -/
def serializeHttpURL (sch host tl : Str) : Str :=
  sch ++ "://".data ++ host ++ (if tl = [] then "/".data else tl)

/-- The path part of a URL tail: everything before the first `?` or `#`. -/
def pathPart (tl : Str) : Str := tl.takeWhile (fun c => c ≠ '?' && c ≠ '#')

/-- Directory of a path: up to and including the last `/`, or `/` when the
path has none. -/
def dirPart (p : Str) : Str :=
  match (p.reverse.dropWhile (fun c => c ≠ '/')).reverse with
  | [] => "/".data
  | d => d

/-- Models `new URL(ref, base).toString()` on the subset the rewriter
exercises: absolute http/https references are reparsed, other absolute schemes
(mailto:, data:, ...) are opaque and returned verbatim, protocol-relative,
root-relative, query, fragment and path-relative references are resolved
against the base; `none` models the constructor throwing.  Model
simplifications: dot segments are not collapsed and `http:` without `//` is not
special-cased. -/
def parseURL (ref base : Str) : Option Str :=
  match splitScheme ref with
  | some (sch, _) =>
    if sch = "http".data ∨ sch = "https".data then
      (parseHttpURL ref).map (fun t => serializeHttpURL t.1 t.2.1 t.2.2)
    else some ref
  | none =>
    match parseHttpURL base with
    | none => none
    | some (sch, host, tl) =>
      if leadsWith "//".data ref = true then
        (parseHttpURL (sch ++ ":".data ++ ref)).map (fun t => serializeHttpURL t.1 t.2.1 t.2.2)
      else if leadsWith "/".data ref = true then some (sch ++ "://".data ++ host ++ ref)
      else if ref = [] then some (serializeHttpURL sch host tl)
      else if leadsWith "?".data ref = true then
        some (sch ++ "://".data ++ host ++
          (if pathPart tl = [] then "/".data else pathPart tl) ++ ref)
      else if leadsWith "#".data ref = true then
        some (sch ++ "://".data ++ host ++
          (if tl.takeWhile (fun c => c ≠ '#') = [] then "/".data
           else tl.takeWhile (fun c => c ≠ '#')) ++ ref)
      else some (sch ++ "://".data ++ host ++ dirPart (pathPart tl) ++ ref)

/-- Embeds `toAbsolute` (src/unnamed/part_001 lines 5-11): try the URL
constructor against the base and fall back to the original reference string
when no URL can be constructed (the catch branch). -/
def toAbsolute (url base : Str) : Str := (parseURL url base).getD url

/-- HTML document node: an element with tag, attribute list and children, or a
text node.  Models the cheerio document tree; tag and attribute names are
lower-case, as the parser normalizes them. -/
inductive Node where
  | element (tag : Str) (attrs : List (Str × Str)) (children : List Node)
  | text (s : Str)

/-- Attribute lookup, `$(el).attr(name)`: first entry with the exact name. -/
def getAttr (attrs : List (Str × Str)) (name : Str) : Option Str :=
  match attrs with
  | [] => none
  | p :: rest => if p.1 = name then some p.2 else getAttr rest name

/-- Attribute update, `$(el).attr(name, value)`: an existing attribute keeps
its position and gets the new value, a new attribute is appended. -/
def setAttr (attrs : List (Str × Str)) (name v : Str) : List (Str × Str) :=
  if attrs.any (fun p => p.1 = name) then
    attrs.map (fun p => if p.1 = name then (name, v) else p)
  else attrs ++ [(name, v)]

/-- The skip conditions of the attribute loop (src/unnamed/part_001 lines
40-42): fragment references and (case-insensitively) mailto:, tel: and
javascript: values must reach the browser unmodified. -/
def skipValue (v : Str) : Bool :=
  leadsWith "#".data v || leadsWith "mailto:".data (lowerStr v) ||
  leadsWith "tel:".data (lowerStr v) || leadsWith "javascript:".data (lowerStr v)

/-- Embeds the per-element body of the attribute loop (src/unnamed/part_001
lines 35-52) for one rule (tag, attribute): a missing or empty value and the
skip values leave the element untouched; otherwise the value is resolved
against the base, a form additionally gets method=GET, and the attribute is
overwritten with the wrapped absolute URL. -/
def applyAttrRule (tag attrName base : Str) (attrs : List (Str × Str)) : List (Str × Str) :=
  match getAttr attrs attrName with
  | none => attrs
  | some v =>
    if v = [] then attrs
    else if skipValue v = true then attrs
    else
      setAttr (if tag = "form".data then setAttr attrs "method".data "GET".data else attrs)
        attrName (wrap (toAbsolute v base))

/-- The fixed AttributeRewriteRule set (src/unnamed/part_001 lines 22-32). -/
def attrTargets : List (Str × Str) :=
  [("a".data, "href".data), ("link".data, "href".data), ("img".data, "src".data),
   ("script".data, "src".data), ("iframe".data, "src".data), ("source".data, "src".data),
   ("video".data, "src".data), ("audio".data, "src".data), ("form".data, "action".data)]

mutual

/-- Apply one (tag, attribute) rule to every matching element of the document,
as `$(tag).each` does. -/
def rewriteNodeAttrs (base : Str) (rule : Str × Str) : Node → Node
  | .text s => .text s
  | .element t attrs ch =>
    .element t (if t = rule.1 then applyAttrRule rule.1 rule.2 base attrs else attrs)
      (rewriteNodesAttrs base rule ch)

/-- `rewriteNodeAttrs` over a list of siblings. -/
def rewriteNodesAttrs (base : Str) (rule : Str × Str) : List Node → List Node
  | [] => []
  | n :: ns => rewriteNodeAttrs base rule n :: rewriteNodesAttrs base rule ns

end

/-- The attribute pass of `rewriteHtml`: fold the fixed rule set over the
document. -/
def attrPass (base : Str) (doc : Node) : Node :=
  attrTargets.foldl (fun t rule => rewriteNodeAttrs base rule t) doc

theorem splitFirst_length {sep : Char} :
    ∀ {s : Str} {a b : Str}, splitFirst sep s = some (a, b) → b.length < s.length := by
  intro s
  induction s with
  | nil => intro a b h; exact Option.noConfusion h
  | cons c cs ih =>
    intro a b h
    by_cases hc : c = sep
    · rw [splitFirst, if_pos hc] at h
      cases h
      simp
    · rw [splitFirst, if_neg hc] at h
      cases hsf : splitFirst sep cs with
      | none => rw [hsf] at h; exact Option.noConfusion h
      | some p =>
        rw [hsf, Option.map_some'] at h
        cases h
        have := ih hsf
        simp only [List.length_cons]
        omega

/-- Whitespace characters of JS `String.prototype.trim` occurring in CSS text
(space, tab, line feed, carriage return, vertical tab, form feed). -/
def isJsSpace (c : Char) : Bool :=
  c = ' ' || c = Char.ofNat 9 || c = Char.ofNat 10 || c = Char.ofNat 13 ||
  c = Char.ofNat 11 || c = Char.ofNat 12

/-- Models `p1.trim()` of the CSS pass. -/
def trimStr (s : Str) : Str :=
  ((s.dropWhile isJsSpace).reverse.dropWhile isJsSpace).reverse

/-- A single or double quote character. -/
def isQuote (c : Char) : Bool := c = '"' || c = Char.ofNat 39

/-- Models the quote strip of the CSS pass, the replace of one leading and one
trailing single or double quote. -/
def stripQuotes (s : Str) : Str :=
  let s1 := match s with
    | c :: rest => if isQuote c then rest else s
    | [] => []
  match s1.reverse with
  | c :: rest => if isQuote c then rest.reverse else s1
  | [] => s1

/-- One matched replacement of the CSS url pattern (src/unnamed/part_001 lines
58-63): trim the capture, strip surrounding quotes, keep data: URIs verbatim,
otherwise resolve against the base and wrap. -/
def cssRewriteMatch (base content : Str) : Str :=
  if leadsWith "data:".data (stripQuotes (trimStr content)) = true then
    "url(".data ++ content ++ ")".data
  else "url(".data ++ wrap (toAbsolute (stripQuotes (trimStr content)) base) ++ ")".data

/-- Fuelled scanner for the global regex replace of the style pass: at each
position, a match is `url(` followed by a nonempty run of characters other than
`)` and a closing `)`; matches are replaced via `cssRewriteMatch` and scanning
continues after the match, every other character is copied.  The fuel only
bounds the recursion; `replaceCssUrls` supplies enough for the whole string. -/
def replaceCssUrlsFuel (base : Str) : Nat → Str → Str
  | _, [] => []
  | 0, s => s
  | fuel + 1, c :: rest =>
    if leadsWith "url(".data (c :: rest) = true then
      match splitFirst ')' (rest.drop 3) with
      | some (content, after) =>
        if content = [] then c :: replaceCssUrlsFuel base fuel rest
        else cssRewriteMatch base content ++ replaceCssUrlsFuel base fuel after
      | none => c :: replaceCssUrlsFuel base fuel rest
    else c :: replaceCssUrlsFuel base fuel rest

/-- Embeds the regex replace of the style pass (src/unnamed/part_001 lines
58-63), the global leftmost-match scan. -/
def replaceCssUrls (base s : Str) : Str := replaceCssUrlsFuel base s.length s

/-- Apply the CSS url replacement to a text node, leaving elements alone. -/
def styleTextNode (base : Str) : Node → Node
  | .text s => .text (replaceCssUrls base s)
  | n => n

mutual

/-- Embeds the style pass (src/unnamed/part_001 lines 56-65): every style
element's text content goes through the url( replacement.  A style element
holds raw text in an HTML document; the model applies the replacement to each
text child. -/
def rewriteStyles (base : Str) : Node → Node
  | .text s => .text s
  | .element t attrs ch =>
    if t = "style".data then
      .element t attrs ((rewriteStylesList base ch).map (styleTextNode base))
    else .element t attrs (rewriteStylesList base ch)

/-- `rewriteStyles` over a list of siblings. -/
def rewriteStylesList (base : Str) : List Node → List Node
  | [] => []
  | n :: ns => rewriteStyles base n :: rewriteStylesList base ns

end

/-- The toolbar fragment prepended to the body (src/unnamed/part_001 lines
68-77), as parsed nodes; the whitespace-only text between the elements of the
template literal is omitted from the model. -/
def toolbarNodes (base : Str) : List Node :=
  [.element "div".data
    [("id".data, "proxy-bar".data),
     ("style".data, ("position:fixed;top:0;left:0;right:0;background:#111;" ++
       "color:#eee;font:14px/1.4 sans-serif;padding:8px;z-index:999999;").data)]
    [.element "form".data
      [("action".data, "/api/proxy".data), ("method".data, "GET".data),
       ("style".data, "display:flex;gap:8px;".data)]
      [.element "input".data
        [("type".data, "text".data), ("name".data, "url".data), ("value".data, base),
         ("style".data, ("flex:1;padding:6px;border-radius:4px;border:1px solid #333;" ++
           "background:#222;color:#eee;").data)] [],
       .element "button".data
        [("type".data, "submit".data),
         ("style".data, ("padding:6px 10px;border-radius:4px;background:#444;" ++
           "color:#eee;border:1px solid #333;").data)]
        [.text "Go".data],
       .element "span".data
        [("style".data, "margin-left:auto;opacity:0.8".data)]
        [.text ("Proxying: ".data ++ base)]]],
   .element "style".data [] [.text "html,body\x7bmargin-top:40px !important\x7d".data]]

mutual

/-- Embeds the toolbar injection, `$("body").prepend(...)` (src/unnamed/part_001
lines 68-77): the toolbar nodes become the first children of every body
element; a document without a body is untouched. -/
def prependToolbar (base : Str) : Node → Node
  | .text s => .text s
  | .element t attrs ch =>
    if t = "body".data then
      .element t attrs (toolbarNodes base ++ prependToolbarList base ch)
    else .element t attrs (prependToolbarList base ch)

/-- `prependToolbar` over a list of siblings. -/
def prependToolbarList (base : Str) : List Node → List Node
  | [] => []
  | n :: ns => prependToolbar base n :: prependToolbarList base ns

end

/-- Embeds `rewriteHtml` (src/unnamed/part_001 lines 19-80) at the document
tree level, in source order: the attribute pass over the fixed rule set, then
the inline-style pass, then the toolbar injection. -/
def rewriteHtml (base : Str) (doc : Node) : Node :=
  prependToolbar base (rewriteStyles base (attrPass base doc))

mutual

/-- All elements with the given tag, in document order (pre-order). -/
def elemsByTag (tag : Str) : Node → List Node
  | .text _ => []
  | .element t attrs ch =>
    (if t = tag then [Node.element t attrs ch] else []) ++ elemsByTagList tag ch

/-- `elemsByTag` over a list of siblings. -/
def elemsByTagList (tag : Str) : List Node → List Node
  | [] => []
  | n :: ns => elemsByTag tag n ++ elemsByTagList tag ns

end

/-- Attribute of a node (`none` for text nodes). -/
def attrOf (n : Node) (name : Str) : Option Str :=
  match n with
  | .element _ attrs _ => getAttr attrs name
  | .text _ => none

/-- Children of a node. -/
def childrenOf : Node → List Node
  | .element _ _ ch => ch
  | .text _ => []

/-- The strings of the text children of a node. -/
def textChildren (n : Node) : List Str :=
  (childrenOf n).filterMap (fun m =>
    match m with
    | .text s => some s
    | .element _ _ _ => none)

theorem getAttr_map_set (k v : Str) :
    ∀ m : List (Str × Str), m.any (fun p => p.1 = k) = true →
      getAttr (m.map (fun p => if p.1 = k then (k, v) else p)) k = some v := by
  intro m
  induction m with
  | nil => intro h; simp at h
  | cons p rest ih =>
    intro h
    rw [List.map_cons]
    by_cases hp : p.1 = k
    · rw [if_pos hp, getAttr]
      simp
    · rw [if_neg hp, getAttr, if_neg hp]
      apply ih
      rw [List.any_cons, Bool.or_eq_true] at h
      rcases h with h | h
      · exact absurd (of_decide_eq_true h) hp
      · exact h

theorem getAttr_append_single (k v : Str) :
    ∀ m : List (Str × Str), (∀ p ∈ m, p.1 ≠ k) → getAttr (m ++ [(k, v)]) k = some v := by
  intro m
  induction m with
  | nil => intro _; simp [getAttr]
  | cons p rest ih =>
    intro h
    rw [List.cons_append, getAttr, if_neg (h p (by simp))]
    exact ih (fun q hq => h q (by simp [hq]))

theorem getAttr_setAttr (m : List (Str × Str)) (k v : Str) :
    getAttr (setAttr m k v) k = some v := by
  rw [setAttr]
  by_cases h : m.any (fun p => p.1 = k) = true
  · rw [if_pos h]
    exact getAttr_map_set k v m h
  · rw [if_neg h]
    have hall : ∀ p ∈ m, p.1 ≠ k := by
      intro p hp he
      exact h (by rw [List.any_eq_true]; exact ⟨p, hp, decide_eq_true he⟩)
    exact getAttr_append_single k v m hall

theorem applyAttrRule_none (tag attrName base : Str) (attrs : List (Str × Str))
    (h : getAttr attrs attrName = none) :
    applyAttrRule tag attrName base attrs = attrs := by
  simp only [applyAttrRule, h]

theorem applyAttrRule_skip (tag attrName base : Str) (attrs : List (Str × Str)) (v : Str)
    (h : getAttr attrs attrName = some v) (hskip : v = [] ∨ skipValue v = true) :
    applyAttrRule tag attrName base attrs = attrs := by
  simp only [applyAttrRule, h]
  rcases hskip with rfl | hsk
  · rw [if_pos rfl]
  · by_cases hemp : v = []
    · rw [if_pos hemp]
    · rw [if_neg hemp, if_pos hsk]

theorem applyAttrRule_rewrite (tag attrName base : Str) (attrs : List (Str × Str)) (v : Str)
    (h : getAttr attrs attrName = some v) (hne : v ≠ []) (hsk : skipValue v = false) :
    getAttr (applyAttrRule tag attrName base attrs) attrName =
      some (wrap (toAbsolute v base)) := by
  simp only [applyAttrRule, h]
  rw [if_neg hne, if_neg (by rw [hsk]; simp)]
  exact getAttr_setAttr _ _ _

/-- Example document of the spec: `<a href="/x">go</a>` inside a body. -/
def aDoc : Node :=
  .element "html".data []
    [.element "body".data []
      [.element "a".data [("href".data, "/x".data)] [.text "go".data]]]

/-- C5: for every rule (tag, attribute) of the fixed rewrite set and every
attribute list: an absent value, an empty value, a fragment reference or a
(case-insensitive) mailto:/tel:/javascript: value leaves the element exactly
unchanged; any other value is overwritten with wrap (toAbsolute value base).
The spec example: `<a href="/x">` with base `https://example.com/page` gets an
href whose url parameter decodes to `https://example.com/x`. -/
theorem c5_attr_rules :
    (∀ rule ∈ attrTargets, ∀ (base : Str) (attrs : List (Str × Str)),
      (getAttr attrs rule.2 = none → applyAttrRule rule.1 rule.2 base attrs = attrs) ∧
      (∀ v, getAttr attrs rule.2 = some v → (v = [] ∨ skipValue v = true) →
        applyAttrRule rule.1 rule.2 base attrs = attrs) ∧
      (∀ v, getAttr attrs rule.2 = some v → v ≠ [] → skipValue v = false →
        getAttr (applyAttrRule rule.1 rule.2 base attrs) rule.2 =
          some (wrap (toAbsolute v base)))) ∧
    ((elemsByTag "a".data (rewriteHtml "https://example.com/page".data aDoc)).map
        (fun n => attrOf n "href".data)) = [some (wrap "https://example.com/x".data)] ∧
    (getQueryParam "url".data (wrap "https://example.com/x".data)).bind decodeURIComponent =
      some "https://example.com/x".data := by
  refine ⟨?_, by rfl, by rfl⟩
  intro rule _ base attrs
  exact ⟨applyAttrRule_none rule.1 rule.2 base attrs,
    fun v hv hs => applyAttrRule_skip rule.1 rule.2 base attrs v hv hs,
    fun v hv hne hsk => applyAttrRule_rewrite rule.1 rule.2 base attrs v hv hne hsk⟩

/-- Closed instance of C5: the spec's mailto example is left unchanged, and a
plain relative href is rewritten to the wrapped resolved URL. -/
theorem c5_attr_rules_witness :
    applyAttrRule "a".data "href".data "https://example.com/page".data
        [("href".data, "mailto:a@b.com".data)] =
      [("href".data, "mailto:a@b.com".data)] ∧
    getAttr (applyAttrRule "a".data "href".data "https://example.com/page".data
        [("href".data, "/x".data)]) "href".data =
      some (wrap (toAbsolute "/x".data "https://example.com/page".data)) :=
  ⟨((c5_attr_rules.1 ("a".data, "href".data) (by decide) "https://example.com/page".data
      [("href".data, "mailto:a@b.com".data)]).2.1 "mailto:a@b.com".data (by rfl)
      (Or.inr (by rfl))),
   ((c5_attr_rules.1 ("a".data, "href".data) (by decide) "https://example.com/page".data
      [("href".data, "/x".data)]).2.2 "/x".data (by rfl) (by decide) (by rfl))⟩

/-- Example document of the spec: `<form action="/submit" method="POST">`. -/
def formDoc : Node :=
  .element "html".data []
    [.element "body".data []
      [.element "form".data
        [("action".data, "/submit".data), ("method".data, "POST".data)] []]]

/-- C6: after the rewriter runs on `<form action="/submit" method="POST">` with
base `https://example.com/page`, the form's method is GET and its action's url
parameter decodes to `https://example.com/submit`.  In document order the
injected toolbar form (action `/api/proxy`, method GET) precedes the rewritten
form. -/
theorem c6_form_get :
    ((elemsByTag "form".data (rewriteHtml "https://example.com/page".data formDoc)).map
        (fun n => (attrOf n "method".data, attrOf n "action".data))) =
      [(some "GET".data, some "/api/proxy".data),
       (some "GET".data, some (wrap "https://example.com/submit".data))] ∧
    (getQueryParam "url".data (wrap "https://example.com/submit".data)).bind
        decodeURIComponent = some "https://example.com/submit".data := by
  exact ⟨by rfl, by rfl⟩

/-- Example document: a form with a method but no action. -/
def formNoActionDoc : Node :=
  .element "html".data []
    [.element "body".data []
      [.element "form".data [("method".data, "POST".data)] []]]

/-- C10: a form whose action is absent, empty or in the skip set keeps its
method attribute: method=GET is forced only when the action is rewritten.
Concretely `<form method="POST">` with no action still has method POST after
the rewriter runs (the GET form in the output is the injected toolbar form). -/
theorem c10_form_method_preserved :
    (∀ (base : Str) (attrs : List (Str × Str)),
      (getAttr attrs "action".data = none ∨
        (∃ v, getAttr attrs "action".data = some v ∧ (v = [] ∨ skipValue v = true))) →
      applyAttrRule "form".data "action".data base attrs = attrs) ∧
    ((elemsByTag "form".data
        (rewriteHtml "https://example.com/page".data formNoActionDoc)).map
        (fun n => attrOf n "method".data)) = [some "GET".data, some "POST".data] := by
  refine ⟨?_, by rfl⟩
  intro base attrs h
  rcases h with h | ⟨v, hv, hs⟩
  · exact applyAttrRule_none _ _ base attrs h
  · exact applyAttrRule_skip _ _ base attrs v hv hs

/-- Closed instance of C10: the per-element step leaves a form with no action
untouched, method included. -/
theorem c10_form_method_preserved_witness :
    applyAttrRule "form".data "action".data "https://example.com/".data
        [("method".data, "POST".data)] = [("method".data, "POST".data)] :=
  c10_form_method_preserved.1 "https://example.com/".data
    [("method".data, "POST".data)] (Or.inl (by rfl))

/-- Example document containing an unresolvable reference: `http://` has an
empty host, so the URL constructor fails on it; the sibling img has an
ordinary relative reference. -/
def badRefDoc : Node :=
  .element "html".data []
    [.element "body".data []
      [.element "a".data [("href".data, "http://".data)] [],
       .element "img".data [("src".data, "/x.png".data)] []]]

/-- C8 counterexample: the claim says a single unresolvable reference is left
unmodified in the document, but the rewriter still wraps it — the anchor's
href becomes `wrap "http://"`, which differs from the original `http://`. -/
theorem c8_unresolvable_still_wrapped :
    ((elemsByTag "a".data (rewriteHtml "https://example.com/".data badRefDoc)).map
        (fun n => attrOf n "href".data)) = [some (wrap "http://".data)] ∧
    wrap "http://".data ≠ "http://".data := by
  exact ⟨by rfl, by decide⟩

/-- C8 (amended): when no URL can be constructed, `toAbsolute` returns the
original reference unchanged and never raises, and the rewriter continues with
the rest of the document — but the failing reference is not left verbatim in
the document: its attribute is overwritten with the wrap of the unresolved
original, while sibling references are rewritten normally. -/
theorem c8_resolve_fails_open :
    (∀ ref base : Str, parseURL ref base = none → toAbsolute ref base = ref) ∧
    parseURL "http://".data "https://example.com/".data = none ∧
    ((elemsByTag "a".data (rewriteHtml "https://example.com/".data badRefDoc)).map
        (fun n => attrOf n "href".data)) = [some (wrap "http://".data)] ∧
    ((elemsByTag "img".data (rewriteHtml "https://example.com/".data badRefDoc)).map
        (fun n => attrOf n "src".data)) =
      [some (wrap "https://example.com/x.png".data)] := by
  refine ⟨?_, by rfl, by rfl, by rfl⟩
  intro ref base h
  rw [toAbsolute, h]
  rfl

/-- Closed instance of C8 (amended): `toAbsolute` falls back to the original
reference for the failing `http://`. -/
theorem c8_resolve_fails_open_witness :
    toAbsolute "http://".data "https://example.com/".data = "http://".data :=
  c8_resolve_fails_open.1 "http://".data "https://example.com/".data (by rfl)

theorem replaceCssUrlsFuel_congr (base : Str) :
    ∀ (fuel fuel2 : Nat) (s : Str), s.length ≤ fuel → s.length ≤ fuel2 →
      replaceCssUrlsFuel base fuel s = replaceCssUrlsFuel base fuel2 s := by
  intro fuel
  induction fuel with
  | zero =>
    intro fuel2 s h1 _
    have hs : s = [] := List.length_eq_zero.mp (by omega)
    subst hs
    cases fuel2 <;> rfl
  | succ fuel ih =>
    intro fuel2 s h1 h2
    cases s with
    | nil => cases fuel2 <;> rfl
    | cons c rest =>
      cases fuel2 with
      | zero => simp at h2
      | succ fuel2 =>
        rw [replaceCssUrlsFuel, replaceCssUrlsFuel]
        simp only [List.length_cons] at h1 h2
        by_cases hlead : leadsWith "url(".data (c :: rest) = true
        · rw [if_pos hlead, if_pos hlead]
          cases hsp : splitFirst ')' (rest.drop 3) with
          | none =>
            simp only [hsp]
            rw [ih fuel2 rest (by omega) (by omega)]
          | some p =>
            obtain ⟨content, after⟩ := p
            simp only [hsp]
            have hlen := splitFirst_length hsp
            rw [List.length_drop] at hlen
            by_cases hc : content = []
            · rw [if_pos hc, if_pos hc, ih fuel2 rest (by omega) (by omega)]
            · rw [if_neg hc, if_neg hc, ih fuel2 after (by omega) (by omega)]
        · rw [if_neg hlead, if_neg hlead, ih fuel2 rest (by omega) (by omega)]

theorem replaceCssUrls_match (base content rest : Str)
    (hne : content ≠ []) (hnp : ∀ c ∈ content, c ≠ ')') :
    replaceCssUrls base ("url(".data ++ content ++ ")".data ++ rest) =
      cssRewriteMatch base content ++ replaceCssUrls base rest := by
  have hs : "url(".data ++ content ++ ")".data ++ rest =
      'u' :: ('r' :: 'l' :: '(' :: (content ++ ')' :: rest)) := by
    rw [List.append_assoc, List.append_assoc]
    rfl
  rw [replaceCssUrls, hs, List.length_cons, replaceCssUrlsFuel]
  have hlead : leadsWith "url(".data
      ('u' :: ('r' :: 'l' :: '(' :: (content ++ ')' :: rest))) = true := rfl
  rw [if_pos hlead]
  have hdrop : (('r' :: 'l' :: '(' :: (content ++ ')' :: rest)) : Str).drop 3 =
      content ++ ')' :: rest := rfl
  rw [hdrop]
  simp only [splitFirst_append hnp rest]
  rw [if_neg hne]
  congr 1
  rw [replaceCssUrls]
  apply replaceCssUrlsFuel_congr
  · simp only [List.length_cons, List.length_append]
    omega
  · exact Nat.le_refl _

/-- Example document of the spec: a style block with a url reference. -/
def styleDoc : Node :=
  .element "html".data []
    [.element "body".data []
      [.element "style".data [] [.text ".a\x7bbackground:url(/img.png)\x7d".data]]]

/-- C7: every `url(...)` match inside an inline style block — `url(` followed
by a nonempty run of characters other than `)` and the first `)` — is
rewritten in place: the capture is trimmed and stripped of surrounding quotes,
a `data:` URI is kept verbatim, anything else is resolved against the base and
wrapped.  The spec example `.a{background:url(/img.png)}` with base
`https://example.com/` yields the wrapped absolute image URL inside `url(...)`
(the first style of the output is the injected toolbar style). -/
theorem c7_css_urls :
    (∀ (base content rest : Str), content ≠ [] → (∀ c ∈ content, c ≠ ')') →
      replaceCssUrls base ("url(".data ++ content ++ ")".data ++ rest) =
        (if leadsWith "data:".data (stripQuotes (trimStr content)) = true then
          "url(".data ++ content ++ ")".data
         else
          "url(".data ++ wrap (toAbsolute (stripQuotes (trimStr content)) base) ++
            ")".data) ++
        replaceCssUrls base rest) ∧
    ((elemsByTag "style".data (rewriteHtml "https://example.com/".data styleDoc)).map
        textChildren) =
      [["html,body\x7bmargin-top:40px !important\x7d".data],
       [".a\x7bbackground:url(".data ++ wrap "https://example.com/img.png".data ++
         ")\x7d".data]] := by
  refine ⟨?_, by rfl⟩
  intro base content rest hne hnp
  rw [replaceCssUrls_match base content rest hne hnp, cssRewriteMatch]

/-- Closed instance of C7: a relative image reference inside url( ) is resolved
and wrapped in place. -/
theorem c7_css_urls_witness :
    replaceCssUrls "https://example.com/".data
        ("url(".data ++ "/img.png".data ++ ")".data ++ "x".data) =
      (if leadsWith "data:".data (stripQuotes (trimStr "/img.png".data)) = true then
        "url(".data ++ "/img.png".data ++ ")".data
       else
        "url(".data ++
          wrap (toAbsolute (stripQuotes (trimStr "/img.png".data))
            "https://example.com/".data) ++ ")".data) ++
      replaceCssUrls "https://example.com/".data "x".data :=
  c7_css_urls.1 "https://example.com/".data "/img.png".data "x".data (by decide) (by decide)

mutual

theorem elemsLen_attrs (tag base : Str) (rule : Str × Str) :
    ∀ n : Node, (elemsByTag tag (rewriteNodeAttrs base rule n)).length =
      (elemsByTag tag n).length
  | .text s => by rw [rewriteNodeAttrs]
  | .element t attrs ch => by
    rw [rewriteNodeAttrs, elemsByTag, elemsByTag, List.length_append, List.length_append,
      elemsLenList_attrs tag base rule ch]
    by_cases htag : t = tag
    · rw [if_pos htag, if_pos htag]
      simp
    · rw [if_neg htag, if_neg htag]

theorem elemsLenList_attrs (tag base : Str) (rule : Str × Str) :
    ∀ l : List Node, (elemsByTagList tag (rewriteNodesAttrs base rule l)).length =
      (elemsByTagList tag l).length
  | [] => rfl
  | n :: ns => by
    rw [rewriteNodesAttrs, elemsByTagList, elemsByTagList, List.length_append,
      List.length_append, elemsLen_attrs tag base rule n, elemsLenList_attrs tag base rule ns]

end

theorem elemsByTagList_map_styleText (tag base : Str) :
    ∀ l : List Node, elemsByTagList tag (l.map (styleTextNode base)) = elemsByTagList tag l
  | [] => rfl
  | n :: ns => by
    rw [List.map_cons, elemsByTagList, elemsByTagList, elemsByTagList_map_styleText tag base ns]
    congr 1
    cases n with
    | text s => rfl
    | element t a ch => rfl

mutual

theorem elemsLen_styles (tag base : Str) :
    ∀ n : Node, (elemsByTag tag (rewriteStyles base n)).length = (elemsByTag tag n).length
  | .text s => by rw [rewriteStyles]
  | .element t attrs ch => by
    rw [rewriteStyles]
    by_cases hst : t = "style".data
    · rw [if_pos hst, elemsByTag, elemsByTag, List.length_append, List.length_append,
        elemsByTagList_map_styleText tag base (rewriteStylesList base ch),
        elemsLenList_styles tag base ch]
      by_cases htag : t = tag
      · rw [if_pos htag, if_pos htag]
        simp
      · rw [if_neg htag, if_neg htag]
    · rw [if_neg hst, elemsByTag, elemsByTag, List.length_append, List.length_append,
        elemsLenList_styles tag base ch]
      by_cases htag : t = tag
      · rw [if_pos htag, if_pos htag]
        simp
      · rw [if_neg htag, if_neg htag]

theorem elemsLenList_styles (tag base : Str) :
    ∀ l : List Node, (elemsByTagList tag (rewriteStylesList base l)).length =
      (elemsByTagList tag l).length
  | [] => rfl
  | n :: ns => by
    rw [rewriteStylesList, elemsByTagList, elemsByTagList, List.length_append,
      List.length_append, elemsLen_styles tag base n, elemsLenList_styles tag base ns]

end

theorem elemsLen_attrPass (tag base : Str) (n : Node) :
    (elemsByTag tag (attrPass base n)).length = (elemsByTag tag n).length := by
  rw [attrPass]
  generalize attrTargets = rules
  induction rules generalizing n with
  | nil => rfl
  | cons r rs ih =>
    rw [List.foldl_cons]
    rw [ih (rewriteNodeAttrs base r n), elemsLen_attrs tag base r n]

theorem toolbar_no_body (base : Str) :
    elemsByTagList "body".data (toolbarNodes base) = [] := rfl

theorem elemsByTagList_append (tag : Str) :
    ∀ l1 l2 : List Node, elemsByTagList tag (l1 ++ l2) =
      elemsByTagList tag l1 ++ elemsByTagList tag l2
  | [], l2 => rfl
  | n :: ns, l2 => by
    rw [List.cons_append, elemsByTagList, elemsByTagList, elemsByTagList_append tag ns l2,
      List.append_assoc]

mutual

theorem prependToolbar_no_body (base : Str) :
    ∀ n : Node, elemsByTag "body".data n = [] → prependToolbar base n = n
  | .text s => fun _ => rfl
  | .element t attrs ch => by
    intro h
    rw [elemsByTag] at h
    have hsplit := List.append_eq_nil.mp h
    have ht : t ≠ "body".data := by
      intro he
      have h1 := hsplit.1
      rw [if_pos he] at h1
      exact List.cons_ne_nil _ _ h1
    rw [prependToolbar, if_neg ht, prependToolbarList_no_body base ch hsplit.2]

theorem prependToolbarList_no_body (base : Str) :
    ∀ l : List Node, elemsByTagList "body".data l = [] → prependToolbarList base l = l
  | [] => fun _ => rfl
  | n :: ns => by
    intro h
    rw [elemsByTagList] at h
    have hsplit := List.append_eq_nil.mp h
    rw [prependToolbarList, prependToolbar_no_body base n hsplit.1,
      prependToolbarList_no_body base ns hsplit.2]

end

mutual

theorem prependToolbar_body_toolbar (base : Str) :
    ∀ n : Node, ∀ m ∈ elemsByTag "body".data (prependToolbar base n),
      ∃ a ch, m = Node.element "body".data a (toolbarNodes base ++ ch)
  | .text s => by
    intro m hm
    rw [prependToolbar, elemsByTag] at hm
    exact absurd hm (by simp)
  | .element t attrs ch => by
    intro m hm
    by_cases ht : t = "body".data
    · subst ht
      rw [prependToolbar, if_pos rfl, elemsByTag, if_pos rfl] at hm
      rw [List.singleton_append, List.mem_cons] at hm
      rcases hm with rfl | hm
      · exact ⟨attrs, prependToolbarList base ch, rfl⟩
      · rw [elemsByTagList_append, toolbar_no_body, List.nil_append] at hm
        exact prependToolbarList_body_toolbar base ch m hm
    · rw [prependToolbar, if_neg ht, elemsByTag, if_neg ht, List.nil_append] at hm
      exact prependToolbarList_body_toolbar base ch m hm

theorem prependToolbarList_body_toolbar (base : Str) :
    ∀ l : List Node, ∀ m ∈ elemsByTagList "body".data (prependToolbarList base l),
      ∃ a ch, m = Node.element "body".data a (toolbarNodes base ++ ch)
  | [] => by
    intro m hm
    rw [prependToolbarList, elemsByTagList] at hm
    exact absurd hm (by simp)
  | n :: ns => by
    intro m hm
    rw [prependToolbarList, elemsByTagList, List.mem_append] at hm
    rcases hm with hm | hm
    · exact prependToolbar_body_toolbar base n m hm
    · exact prependToolbarList_body_toolbar base ns m hm

end

mutual

theorem elemsLen_toolbar (base : Str) :
    ∀ n : Node, (elemsByTag "body".data (prependToolbar base n)).length =
      (elemsByTag "body".data n).length
  | .text s => by rw [prependToolbar]
  | .element t attrs ch => by
    by_cases ht : t = "body".data
    · rw [prependToolbar, if_pos ht, elemsByTag, elemsByTag, if_pos ht, if_pos ht,
        elemsByTagList_append, toolbar_no_body, List.nil_append,
        List.length_append, List.length_append, elemsLenList_toolbar base ch]
      simp
    · rw [prependToolbar, if_neg ht, elemsByTag, elemsByTag, if_neg ht, if_neg ht,
        List.nil_append, List.nil_append, elemsLenList_toolbar base ch]

theorem elemsLenList_toolbar (base : Str) :
    ∀ l : List Node, (elemsByTagList "body".data (prependToolbarList base l)).length =
      (elemsByTagList "body".data l).length
  | [] => rfl
  | n :: ns => by
    rw [prependToolbarList, elemsByTagList, elemsByTagList, List.length_append,
      List.length_append, elemsLen_toolbar base n, elemsLenList_toolbar base ns]

end

/-- C9: a document containing no body element passes through the toolbar
injection as a no-op (the attribute and style passes still apply, and nothing
fails — the rewriter is total); in a document with a body element, the
rewriter's output still has a body, and every body element of the output has
the toolbar nodes (the navigation div first) as its first children. -/
theorem c9_toolbar_injection (base : Str) (doc : Node) :
    (elemsByTag "body".data doc = [] →
      rewriteHtml base doc = rewriteStyles base (attrPass base doc)) ∧
    (elemsByTag "body".data doc ≠ [] →
      elemsByTag "body".data (rewriteHtml base doc) ≠ [] ∧
      ∀ m ∈ elemsByTag "body".data (rewriteHtml base doc),
        ∃ a ch, m = Node.element "body".data a (toolbarNodes base ++ ch)) := by
  constructor
  · intro h
    rw [rewriteHtml]
    apply prependToolbar_no_body
    apply List.length_eq_zero.mp
    rw [elemsLen_styles, elemsLen_attrPass, h]
    rfl
  · intro h
    constructor
    · intro habs
      apply h
      apply List.length_eq_zero.mp
      have hlen : (elemsByTag "body".data
          (prependToolbar base (rewriteStyles base (attrPass base doc)))).length = 0 := by
        rw [rewriteHtml] at habs
        rw [habs]
        rfl
      rw [elemsLen_toolbar, elemsLen_styles, elemsLen_attrPass] at hlen
      exact hlen
    · intro m hm
      rw [rewriteHtml] at hm
      exact prependToolbar_body_toolbar base _ m hm

/-- Example document with no body element. -/
def divOnlyDoc : Node := .element "div".data [] [.text "x".data]

/-- Closed instance of C9: a body-less document skips the injection while the
other passes still run; a document with a body gets the toolbar as the first
children of its body. -/
theorem c9_toolbar_injection_witness :
    (rewriteHtml "https://example.com/".data divOnlyDoc =
      rewriteStyles "https://example.com/".data
        (attrPass "https://example.com/".data divOnlyDoc)) ∧
    (elemsByTag "body".data (rewriteHtml "https://example.com/".data formDoc) ≠ [] ∧
     ∀ m ∈ elemsByTag "body".data (rewriteHtml "https://example.com/".data formDoc),
       ∃ a ch, m = Node.element "body".data a
         (toolbarNodes "https://example.com/".data ++ ch)) :=
  ⟨(c9_toolbar_injection "https://example.com/".data divOnlyDoc).1 (by rfl),
   (c9_toolbar_injection "https://example.com/".data formDoc).2
     (by intro h; exact List.noConfusion h)⟩
